import Mathlib

/-!
Shallow embedding of the MoE routing / KV-cache compression core of
`kvpress/presses/moe_router_press.py`.

Sequence-indexed tensors are embedded as lists over ℚ (one entry per
sequence position / expert); Python `int()` truncation is embedded
exactly (truncation toward zero); the per-expert slot counters of the
dispatch loop are embedded as a function `ℕ → ℕ` updated pointwise, and
the written dispatch/combine entries as an explicit list of
(expert, slot, probability) triples.
-/

/-- Python `int()` applied to an exact rational: truncation toward zero
(`int(q)` floors nonnegative values and ceils negative ones). -/
def pyTrunc (q : ℚ) : Int :=
  if q < 0 then Int.ceil q else Int.floor q

/-- Truncation toward zero, clamped to ℕ (used where the Python value is
then stored as a nonnegative size). -/
def pyTruncNat (q : ℚ) : Nat :=
  (pyTrunc q).toNat

/-- Embedding of `BaseMoERouter._compute_capacity`:
`int(total_tokens * capacity_factor * top_k / num_experts)` with
`total_tokens = batch_size * seq_len`. -/
def computeCapacity (batchSize seqLen : Nat) (capacityFactor : ℚ)
    (topK numExperts : Nat) : Nat :=
  pyTruncNat (((batchSize * seqLen : Nat) : ℚ) * capacityFactor * (topK : ℚ) / (numExperts : ℚ))

/-- Accumulator of `BaseMoERouter._create_dispatch_combine_tensors`:
`used e` is `expert_capacity_used[e]`, and `writes` records every slot
actually written into the dispatch/combine tensors as
(expert index, slot position, renormalized probability); slots that are
never written keep their initial value 0 in both tensors. -/
structure DispatchAcc where
  used : Nat → Nat
  writes : List (Nat × Nat × ℚ)

/-- One iteration of the `(b, s, k)` loop body of
`_create_dispatch_combine_tensors`: if the target expert still has a free
slot below `capacity`, write dispatch = 1 and combine = probability into
the next free slot and bump the expert's counter, else drop the
assignment. -/
def dispatchStep (capacity : Nat) (st : DispatchAcc) (a : Nat × ℚ) : DispatchAcc :=
  if st.used a.1 < capacity then
    { used := fun e => if e = a.1 then st.used a.1 + 1 else st.used e,
      writes := st.writes ++ [(a.1, st.used a.1, a.2)] }
  else st

/-- Embedding of `BaseMoERouter._create_dispatch_combine_tensors`: fold
the loop body over the flattened token assignments, taken in the fixed
batch-major, then sequence, then top-k rank order of the source loops,
starting from all-zero counters and all-zero tensors. -/
def createDispatchCombine (capacity : Nat) (assigns : List (Nat × ℚ)) : DispatchAcc :=
  assigns.foldl (dispatchStep capacity) ⟨fun _ => 0, []⟩

/-- Number of dispatch/combine slots written for expert `e`. -/
def writesFor (e : Nat) (writes : List (Nat × Nat × ℚ)) : Nat :=
  (writes.filter (fun w => w.1 == e)).length

/-- Loop invariant of the dispatch fold: each expert's slot counter equals
the number of slots written for it, never exceeds `capacity`, and every
written slot position is below `capacity`. -/
def DispatchInv (capacity : Nat) (st : DispatchAcc) : Prop :=
  (∀ e, st.used e = writesFor e st.writes) ∧
  (∀ e, st.used e ≤ capacity) ∧
  (∀ w ∈ st.writes, w.2.1 < capacity)

theorem writesFor_append (e : Nat) (l₁ l₂ : List (Nat × Nat × ℚ)) :
    writesFor e (l₁ ++ l₂) = writesFor e l₁ + writesFor e l₂ := by
  simp [writesFor, List.filter_append]

theorem dispatchStep_inv (capacity : Nat) (st : DispatchAcc) (a : Nat × ℚ)
    (h : DispatchInv capacity st) : DispatchInv capacity (dispatchStep capacity st a) := by
  obtain ⟨hcount, hle, hslot⟩ := h
  unfold dispatchStep
  by_cases hc : st.used a.1 < capacity
  · simp only [hc, if_true]
    refine ⟨?_, ?_, ?_⟩
    · intro e
      by_cases he : e = a.1
      · subst he
        simp [writesFor_append, writesFor, beq_iff_eq, hcount a.1]
      · simp [writesFor_append, writesFor, beq_iff_eq, he, Ne.symm he, hcount e]
    · intro e
      by_cases he : e = a.1
      · subst he
        simpa using hc
      · simp only [he, if_false]
        exact hle e
    · intro w hw
      rcases List.mem_append.mp hw with h1 | h2
      · exact hslot w h1
      · rcases List.mem_singleton.mp h2 with rfl
        simpa [hcount a.1] using hc
  · simp only [hc, if_false]
    exact ⟨hcount, hle, hslot⟩

theorem dispatchFold_inv (capacity : Nat) (assigns : List (Nat × ℚ)) (st : DispatchAcc)
    (h : DispatchInv capacity st) :
    DispatchInv capacity (assigns.foldl (dispatchStep capacity) st) := by
  induction assigns generalizing st with
  | nil => simpa using h
  | cons a rest ih =>
      simpa using ih (dispatchStep capacity st a) (dispatchStep_inv capacity st a h)

theorem dispatchInv_init (capacity : Nat) :
    DispatchInv capacity ⟨fun _ => 0, []⟩ := by
  refine ⟨fun e => rfl, fun e => Nat.zero_le _, ?_⟩
  intro w hw
  simp at hw

/-- C3: the routing call writes at most `capacity` slots per expert, where
`capacity = floor(batch * seq_len * capacity_factor * top_k / num_experts)`;
every written slot position is in range, and assignments beyond capacity
are simply absent from the written slots (their dispatch and combine
entries stay 0), with no error raised. -/
theorem dispatch_respects_capacity (batchSize seqLen : Nat) (capacityFactor : ℚ)
    (topK numExperts : Nat) (assigns : List (Nat × ℚ)) (e : Nat) :
    writesFor e (createDispatchCombine
        (computeCapacity batchSize seqLen capacityFactor topK numExperts) assigns).writes
      ≤ computeCapacity batchSize seqLen capacityFactor topK numExperts ∧
    (createDispatchCombine
        (computeCapacity batchSize seqLen capacityFactor topK numExperts) assigns).used e
      = writesFor e (createDispatchCombine
        (computeCapacity batchSize seqLen capacityFactor topK numExperts) assigns).writes ∧
    ((createDispatchCombine
        (computeCapacity batchSize seqLen capacityFactor topK numExperts) assigns).writes.all
      (fun w => decide (w.2.1 < computeCapacity batchSize seqLen capacityFactor topK numExperts)))
      = true := by
  set cap := computeCapacity batchSize seqLen capacityFactor topK numExperts with hcap
  have h := dispatchFold_inv cap assigns ⟨fun _ => 0, []⟩ (dispatchInv_init cap)
  obtain ⟨hcount, hle, hslot⟩ := h
  refine ⟨?_, (hcount e).symm ▸ rfl, ?_⟩
  · have := hle e
    rwa [hcount e] at this
  · rw [List.all_eq_true]
    intro w hw
    exact decide_eq_true (hslot w hw)

theorem dispatchStep_capacity_zero (st : DispatchAcc) (a : Nat × ℚ) :
    dispatchStep 0 st a = st := by
  simp [dispatchStep]

theorem createDispatchCombine_capacity_zero (assigns : List (Nat × ℚ)) :
    createDispatchCombine 0 assigns = ⟨fun _ => 0, []⟩ := by
  unfold createDispatchCombine
  induction assigns with
  | nil => rfl
  | cons a rest ih => rw [List.foldl_cons, dispatchStep_capacity_zero]; exact ih

/-- C10: when `batch * seq_len * capacity_factor * top_k / num_experts` is a
nonnegative value below 1, the computed per-expert capacity is 0 and the
dispatch loop still returns, writing no slot at all: the dispatch/combine
tensors have zero width along the capacity axis and every combine weight
is zero (every token assignment is dropped). -/
theorem capacity_zero_drops_everything (batchSize seqLen : Nat) (capacityFactor : ℚ)
    (topK numExperts : Nat)
    (h0 : 0 ≤ ((batchSize * seqLen : Nat) : ℚ) * capacityFactor * (topK : ℚ) / (numExperts : ℚ))
    (h1 : ((batchSize * seqLen : Nat) : ℚ) * capacityFactor * (topK : ℚ) / (numExperts : ℚ) < 1) :
    computeCapacity batchSize seqLen capacityFactor topK numExperts = 0 ∧
    ∀ assigns : List (Nat × ℚ),
      (createDispatchCombine
          (computeCapacity batchSize seqLen capacityFactor topK numExperts) assigns).writes = [] ∧
      ∀ e, (createDispatchCombine
          (computeCapacity batchSize seqLen capacityFactor topK numExperts) assigns).used e = 0 := by
  have hcap : computeCapacity batchSize seqLen capacityFactor topK numExperts = 0 := by
    unfold computeCapacity pyTruncNat pyTrunc
    rw [if_neg (not_lt.mpr h0)]
    have : ⌊((batchSize * seqLen : Nat) : ℚ) * capacityFactor * (topK : ℚ) / (numExperts : ℚ)⌋ = 0 := by
      rw [Int.floor_eq_zero_iff]
      exact ⟨h0, h1⟩
    rw [this]
    rfl
  refine ⟨hcap, ?_⟩
  intro assigns
  rw [hcap, createDispatchCombine_capacity_zero]
  exact ⟨rfl, fun e => rfl⟩

/-- C10 witness: batch = 1, seq_len = 1, capacity_factor = 1/2, top_k = 1,
num_experts = 2 gives a per-token load of 1/4 < 1, so capacity 0 and an
empty set of written dispatch slots. -/
theorem capacity_zero_drops_everything_witness :
    computeCapacity 1 1 (1/2) 1 2 = 0 ∧
    (createDispatchCombine (computeCapacity 1 1 (1/2) 1 2) [(0, (1 : ℚ))]).writes = [] := by
  have h := capacity_zero_drops_everything 1 1 (1/2) 1 2 (by norm_num) (by norm_num)
  exact ⟨h.1, (h.2 [(0, (1 : ℚ))]).1⟩

/-- Embedding of `torch.linspace(0, 1, seq_len)` used as the fallback
importance vector: position i gets i / (seq_len - 1) (for seq_len = 1
torch returns [0.], matched here because x / 0 = 0 in ℚ). -/
def linearRamp (n : Nat) : List ℚ :=
  (List.range n).map (fun i => (i : ℚ) / ((n : ℚ) - 1))

/-- Front/back window trimming shared by the aggressive / moderate /
conservative branches of `MoERouterPress._apply_expert_compression`:
keep the first `max(1, int(seq_len * frontFrac))` and the last
`max(1, int(seq_len * backFrac))` positions, as a no-op unless the
sequence is strictly longer than the two windows combined. -/
def keepFrontBack {α : Type} (frontFrac backFrac : ℚ) (xs : List α) : List α :=
  let seqLen := xs.length
  let keepFront := max 1 (pyTrunc ((seqLen : ℚ) * frontFrac)).toNat
  let keepBack := max 1 (pyTrunc ((seqLen : ℚ) * backFrac)).toNat
  if seqLen > keepFront + keepBack then
    xs.take keepFront ++ xs.drop (seqLen - keepBack)
  else xs

/-- Importance vector actually used by the selective branch: the derived
per-position scores if their length matches the sequence length, else the
uniform linear ramp (source fallback at the length check). -/
def effImportanceScores (scores : List ℚ) (seqLen : Nat) : List ℚ :=
  if scores.length = seqLen then scores else linearRamp seqLen

/-- Number of kept positions in the selective branch:
`min(max(1, int(seq_len * (1 - compression_ratio))), seq_len)` (the
ℤ → ℕ clamp inside is immaterial because of the outer `max 1`). -/
def selectiveNumKeep (cr : ℚ) (seqLen : Nat) : Nat :=
  min (max 1 (pyTrunc ((seqLen : ℚ) * (1 - cr))).toNat) seqLen

/-- Deterministic order of `torch.topk` over per-position scores:
position i precedes position j when its score is strictly larger, with
ties broken by the smaller original position. -/
def topkIdxRel (scores : List ℚ) (i j : Nat) : Prop :=
  scores.getD j 0 < scores.getD i 0 ∨ (scores.getD i 0 = scores.getD j 0 ∧ i ≤ j)

instance instTopkIdxRelDecidable (scores : List ℚ) : DecidableRel (topkIdxRel scores) :=
  fun i j => by unfold topkIdxRel; infer_instance

instance instTopkIdxRelTotal (scores : List ℚ) : IsTotal Nat (topkIdxRel scores) := by
  constructor
  intro i j
  rcases lt_trichotomy (scores.getD i 0) (scores.getD j 0) with h | h | h
  · exact Or.inr (Or.inl h)
  · rcases Nat.le_total i j with hij | hij
    · exact Or.inl (Or.inr ⟨h, hij⟩)
    · exact Or.inr (Or.inr ⟨h.symm, hij⟩)
  · exact Or.inl (Or.inl h)

instance instTopkIdxRelTrans (scores : List ℚ) : IsTrans Nat (topkIdxRel scores) := by
  constructor
  intro a b c hab hbc
  rcases hab with hab | ⟨hab, hab'⟩
  · rcases hbc with hbc | ⟨hbc, _⟩
    · exact Or.inl (hbc.trans hab)
    · exact Or.inl (hbc ▸ hab)
  · rcases hbc with hbc | ⟨hbc, hbc'⟩
    · exact Or.inl (hab ▸ hbc)
    · exact Or.inr ⟨hab.trans hbc, hab'.trans hbc'⟩

/-- Positions ranked by descending importance (the order in which
`torch.topk` hands back indices). -/
def selectiveRanked (scores : List ℚ) (seqLen : Nat) : List Nat :=
  List.insertionSort (topkIdxRel (effImportanceScores scores seqLen)) (List.range seqLen)

/-- Embedding of the selective branch's kept index set: the
`selectiveNumKeep` top-ranked positions, re-sorted into ascending
original order (`torch.sort` on the topk indices). -/
def selectiveKept (cr : ℚ) (scores : List ℚ) (seqLen : Nat) : List Nat :=
  List.insertionSort (· ≤ ·) ((selectiveRanked scores seqLen).take (selectiveNumKeep cr seqLen))

/-- Selective compression of the sequence axis: gather the kept positions
(in ascending order) from the cache. -/
def selectiveCompress {α : Type} (cr : ℚ) (scores : List ℚ) (xs : List α) : List α :=
  (selectiveKept cr scores xs.length).filterMap (fun i => xs[i]?)

/-- Embedding of `MoERouterPress._apply_expert_compression` on the
sequence axis (identical for keys and values and for every
batch/head slice): dispatch on the strategy name; unknown strategies
fall through unchanged. -/
def applyExpertCompression {α : Type} (strategy : String) (cr : ℚ)
    (scores : List ℚ) (xs : List α) : List α :=
  if strategy = "aggressive" then keepFrontBack (2/10) (1/10) xs
  else if strategy = "moderate" then keepFrontBack (3/10) (2/10) xs
  else if strategy = "conservative" then keepFrontBack (5/10) (3/10) xs
  else if strategy = "selective" then selectiveCompress cr scores xs
  else xs

theorem keepFrontBack_at_100 {α : Type} (xs : List α) (h : xs.length = 100) :
    keepFrontBack (2/10) (1/10) xs = xs.take 20 ++ xs.drop 90 := by
  have e1 : pyTrunc (((100 : ℕ) : ℚ) * (2/10)) = 20 := by norm_num [pyTrunc]
  have e2 : pyTrunc (((100 : ℕ) : ℚ) * (1/10)) = 10 := by norm_num [pyTrunc]
  have t1 : (20 : Int).toNat = 20 := by decide
  have t2 : (10 : Int).toNat = 10 := by decide
  simp only [keepFrontBack, h, e1, e2, t1, t2]
  norm_num

theorem keepFrontBack_short {α : Type} (frontFrac backFrac : ℚ) (ys : List α)
    (h : ys.length < max 1 (pyTrunc ((ys.length : ℚ) * frontFrac)).toNat
        + max 1 (pyTrunc ((ys.length : ℚ) * backFrac)).toNat) :
    keepFrontBack frontFrac backFrac ys = ys := by
  unfold keepFrontBack
  rw [if_neg (Nat.lt_asymm h)]

/-- C6: with the "aggressive" strategy and sequence length 100 the kept
cache is exactly positions [0, 20) followed by positions [90, 100), of
length int(100 * 0.2) + int(100 * 0.1) = 30; and whenever the sequence is
shorter than the two windows combined the cache is returned unchanged. -/
theorem aggressive_strategy_spec {α : Type} (cr : ℚ) (scores : List ℚ) (xs : List α) :
    (xs.length = 100 →
      applyExpertCompression "aggressive" cr scores xs = xs.take 20 ++ xs.drop 90 ∧
      (applyExpertCompression "aggressive" cr scores xs).length = 30) ∧
    (∀ ys : List α,
      ys.length < max 1 (pyTrunc ((ys.length : ℚ) * (2/10))).toNat
          + max 1 (pyTrunc ((ys.length : ℚ) * (1/10))).toNat →
      applyExpertCompression "aggressive" cr scores ys = ys) := by
  have hagg : ∀ zs : List α,
      applyExpertCompression "aggressive" cr scores zs = keepFrontBack (2/10) (1/10) zs := by
    intro zs
    simp [applyExpertCompression]
  constructor
  · intro h100
    have heq : applyExpertCompression "aggressive" cr scores xs = xs.take 20 ++ xs.drop 90 := by
      rw [hagg, keepFrontBack_at_100 xs h100]
    refine ⟨heq, ?_⟩
    rw [heq]
    simp [h100]
  · intro ys hys
    rw [hagg, keepFrontBack_short _ _ _ hys]

/-- C6 witness: the aggressive strategy at the concrete length-100 cache
[0, …, 99] and at a length-1 cache. -/
theorem aggressive_strategy_spec_witness :
    applyExpertCompression "aggressive" (1/2) [] (List.range 100)
        = (List.range 100).take 20 ++ (List.range 100).drop 90 ∧
    (applyExpertCompression "aggressive" (1/2) [] (List.range 100)).length = 30 ∧
    applyExpertCompression "aggressive" (1/2) [] [(0 : ℕ)] = [0] := by
  have h := aggressive_strategy_spec (α := ℕ) (1/2) [] (List.range 100)
  have h100 := h.1 (by simp)
  refine ⟨h100.1, h100.2, ?_⟩
  exact h.2 [0] (by norm_num [pyTrunc])

theorem selectiveRanked_perm (scores : List ℚ) (seqLen : Nat) :
    (selectiveRanked scores seqLen).Perm (List.range seqLen) :=
  List.perm_insertionSort _ _

theorem selectiveRanked_length (scores : List ℚ) (seqLen : Nat) :
    (selectiveRanked scores seqLen).length = seqLen := by
  unfold selectiveRanked
  rw [List.length_insertionSort, List.length_range]

theorem selectiveNumKeep_le (cr : ℚ) (seqLen : Nat) : selectiveNumKeep cr seqLen ≤ seqLen :=
  Nat.min_le_right _ _

theorem selectiveKept_perm_take (cr : ℚ) (scores : List ℚ) (seqLen : Nat) :
    (selectiveKept cr scores seqLen).Perm
      ((selectiveRanked scores seqLen).take (selectiveNumKeep cr seqLen)) :=
  List.perm_insertionSort _ _

theorem selectiveKept_length (cr : ℚ) (scores : List ℚ) (seqLen : Nat) :
    (selectiveKept cr scores seqLen).length = selectiveNumKeep cr seqLen := by
  unfold selectiveKept
  rw [List.length_insertionSort, List.length_take, selectiveRanked_length]
  exact Nat.min_eq_left (selectiveNumKeep_le cr seqLen)

theorem selectiveKept_mem_lt (cr : ℚ) (scores : List ℚ) (seqLen : Nat) (i : Nat)
    (hi : i ∈ selectiveKept cr scores seqLen) : i < seqLen := by
  have h1 : i ∈ (selectiveRanked scores seqLen).take (selectiveNumKeep cr seqLen) :=
    (selectiveKept_perm_take cr scores seqLen).mem_iff.mp hi
  have h2 : i ∈ selectiveRanked scores seqLen :=
    (List.take_sublist _ _).mem h1
  have h3 : i ∈ List.range seqLen := (selectiveRanked_perm scores seqLen).mem_iff.mp h2
  exact List.mem_range.mp h3

theorem selectiveKept_nodup (cr : ℚ) (scores : List ℚ) (seqLen : Nat) :
    (selectiveKept cr scores seqLen).Nodup := by
  have hranked : (selectiveRanked scores seqLen).Nodup :=
    (selectiveRanked_perm scores seqLen).nodup_iff.mpr (List.nodup_range seqLen)
  have htake : ((selectiveRanked scores seqLen).take (selectiveNumKeep cr seqLen)).Nodup :=
    (List.take_sublist _ _).nodup hranked
  exact (selectiveKept_perm_take cr scores seqLen).nodup_iff.mpr htake

theorem selectiveKept_ascending (cr : ℚ) (scores : List ℚ) (seqLen : Nat) :
    List.Pairwise (· < ·) (selectiveKept cr scores seqLen) := by
  have hsorted : List.Sorted (· ≤ ·) (selectiveKept cr scores seqLen) :=
    List.sorted_insertionSort _ _
  exact hsorted.lt_of_le (selectiveKept_nodup cr scores seqLen)

theorem selectiveKept_dominates (cr : ℚ) (scores : List ℚ) (seqLen : Nat)
    (i : Nat) (hi : i ∈ selectiveKept cr scores seqLen)
    (j : Nat) (hj : j < seqLen) (hjn : j ∉ selectiveKept cr scores seqLen) :
    (effImportanceScores scores seqLen).getD j 0
      ≤ (effImportanceScores scores seqLen).getD i 0 := by
  have hpw : List.Pairwise (topkIdxRel (effImportanceScores scores seqLen))
      (selectiveRanked scores seqLen) := List.sorted_insertionSort _ _
  have hsplit := List.take_append_drop (selectiveNumKeep cr seqLen) (selectiveRanked scores seqLen)
  rw [← hsplit] at hpw
  rw [List.pairwise_append] at hpw
  have hitake : i ∈ (selectiveRanked scores seqLen).take (selectiveNumKeep cr seqLen) :=
    (selectiveKept_perm_take cr scores seqLen).mem_iff.mp hi
  have hjranked : j ∈ selectiveRanked scores seqLen :=
    (selectiveRanked_perm scores seqLen).mem_iff.mpr (List.mem_range.mpr hj)
  have hjdrop : j ∈ (selectiveRanked scores seqLen).drop (selectiveNumKeep cr seqLen) := by
    rw [← hsplit] at hjranked
    rcases List.mem_append.mp hjranked with hjt | hjd
    · exact absurd ((selectiveKept_perm_take cr scores seqLen).mem_iff.mpr hjt) hjn
    · exact hjd
  have hrel := hpw.2.2 i hitake j hjdrop
  rcases hrel with hlt | ⟨heq, _⟩
  · exact le_of_lt hlt
  · exact le_of_eq heq.symm

theorem effImportanceScores_fallback (scores : List ℚ) (seqLen : Nat)
    (h : scores.length ≠ seqLen) :
    effImportanceScores scores seqLen = linearRamp seqLen := by
  simp [effImportanceScores, h]

theorem selectiveKept_fallback (cr : ℚ) (scores : List ℚ) (seqLen : Nat)
    (h : scores.length ≠ seqLen) :
    selectiveKept cr scores seqLen = selectiveKept cr (linearRamp seqLen) seqLen := by
  have he : effImportanceScores (linearRamp seqLen) seqLen = linearRamp seqLen := by
    simp [effImportanceScores, linearRamp]
  unfold selectiveKept selectiveRanked
  rw [effImportanceScores_fallback scores seqLen h, he]

theorem filterMap_lookup_length {α : Type} (xs : List α) (l : List Nat)
    (h : ∀ i ∈ l, i < xs.length) :
    (l.filterMap (fun i => xs[i]?)).length = l.length := by
  induction l with
  | nil => rfl
  | cons a t ih =>
      rw [List.filterMap_cons]
      have ha : a < xs.length := h a (List.mem_cons_self a t)
      rw [List.getElem?_eq_getElem ha]
      simp only [List.length_cons]
      rw [ih (fun i hi => h i (List.mem_cons_of_mem a hi))]

/-- C5 (amended): the selective strategy keeps exactly
`min(seq_len, max(1, int(seq_len * (1 - compression_ratio))))` positions —
the claimed `max(1, min(seq_len, int(...)))` only when `seq_len ≥ 1` —
chosen as highest-scoring under the importance vector, returned in
ascending original order, with the uniform linear ramp replacing an
importance vector whose length disagrees with the sequence length. -/
theorem selective_strategy_spec {α : Type} (cr : ℚ) (scores : List ℚ) (xs : List α) :
    (applyExpertCompression "selective" cr scores xs).length
        = min (max 1 (pyTrunc ((xs.length : ℚ) * (1 - cr))).toNat) xs.length ∧
    List.Pairwise (· < ·) (selectiveKept cr scores xs.length) ∧
    (∀ i ∈ selectiveKept cr scores xs.length, ∀ j < xs.length,
        j ∉ selectiveKept cr scores xs.length →
        (effImportanceScores scores xs.length).getD j 0
          ≤ (effImportanceScores scores xs.length).getD i 0) ∧
    (scores.length ≠ xs.length →
        selectiveKept cr scores xs.length
          = selectiveKept cr (linearRamp xs.length) xs.length) := by
  have hsel : applyExpertCompression "selective" cr scores xs
      = selectiveCompress cr scores xs := by
    simp [applyExpertCompression]
  refine ⟨?_, selectiveKept_ascending cr scores xs.length, ?_, ?_⟩
  · rw [hsel]
    unfold selectiveCompress
    rw [filterMap_lookup_length xs _ (fun i hi => selectiveKept_mem_lt cr scores xs.length i hi)]
    rw [selectiveKept_length]
    rfl
  · intro i hi j hj hjn
    exact selectiveKept_dominates cr scores xs.length i hi j hj hjn
  · intro hne
    exact selectiveKept_fallback cr scores xs.length hne

/-- C5 counterexample: at sequence length 0 (a legal degenerate cache) the
code keeps 0 positions, while the claimed count
`max(1, min(seq_len, int(seq_len * (1 - compression_ratio))))` equals 1. -/
theorem selective_claim_count_counterexample :
    (applyExpertCompression "selective" (1/2) [] ([] : List ℚ)).length = 0 ∧
    max 1 (min (List.length ([] : List ℚ))
        (pyTrunc (((List.length ([] : List ℚ)) : ℚ) * (1 - 1/2))).toNat) = 1 := by
  constructor
  · simp [applyExpertCompression, selectiveCompress, selectiveKept, selectiveRanked]
  · simp

/-- C5 witness: compression_ratio = 1/2 at sequence length 10 keeps
exactly 5 positions, in ascending original order. -/
theorem selective_strategy_spec_witness :
    (applyExpertCompression "selective" (1/2) (linearRamp 10) (List.range 10)).length = 5 ∧
    List.Pairwise (· < ·) (selectiveKept (1/2) (linearRamp 10) 10) := by
  have h := selective_strategy_spec (1/2) (linearRamp 10) (List.range 10)
  constructor
  · rw [h.1]
    have e1 : pyTrunc ((((List.range 10).length : ℕ) : ℚ) * (1 - 1/2)) = 5 := by
      norm_num [pyTrunc]
    rw [e1]
    decide
  · have := h.2.1
    simpa using this

/-- Embedding of `MoERouterPress.__post_init__`'s expert-to-strategy
table: exactly the four entries 0..3. -/
def expertStrategies : List (Nat × String) :=
  [(0, "aggressive"), (1, "moderate"), (2, "conservative"), (3, "selective")]

/-- Dictionary lookup `self.expert_strategies[dominant_expert]`. -/
def lookupStrategy (e : Nat) : Option String :=
  expertStrategies.lookup e

/-- Strategy-selection step of `MoERouterPress.compress`: a missing table
entry is a Python `KeyError`, embedded as an `Except.error`; on success
the chosen strategy is applied to the cache. -/
def compressStep (dominantExpert : Nat) (cr : ℚ) (scores : List ℚ)
    (keys : List ℚ) : Except String (List ℚ) :=
  match lookupStrategy dominantExpert with
  | some strategy => Except.ok (applyExpertCompression strategy cr scores keys)
  | none => Except.error "KeyError"

/-- C9: the strategy table holds exactly the keys 0..3, so whenever the
dominant expert index is ≥ 4 (possible as soon as num_experts > 4) the
compress call fails with a key-lookup error instead of returning
compressed arrays. -/
theorem strategy_table_only_four_entries :
    (∀ e : Nat, (lookupStrategy e).isSome = true ↔ e < 4) ∧
    (∀ e : Nat, 4 ≤ e → ∀ (cr : ℚ) (scores keys : List ℚ),
      compressStep e cr scores keys = Except.error "KeyError") := by
  have hnone : ∀ e : Nat, 4 ≤ e → lookupStrategy e = none := by
    intro e he
    unfold lookupStrategy expertStrategies
    have h0 : (e == 0) = false := by simp [beq_iff_eq]; omega
    have h1 : (e == 1) = false := by simp [beq_iff_eq]; omega
    have h2 : (e == 2) = false := by simp [beq_iff_eq]; omega
    have h3 : (e == 3) = false := by simp [beq_iff_eq]; omega
    simp [List.lookup, h0, h1, h2, h3]
  constructor
  · intro e
    constructor
    · intro hsome
      by_contra hlt
      rw [hnone e (by omega)] at hsome
      simp at hsome
    · intro hlt
      interval_cases e <;> decide
  · intro e he cr scores keys
    unfold compressStep
    rw [hnone e he]

/-- C9 witness: expert index 4 (dominant as soon as num_experts = 5 and
expert 4 wins the argmax) has no table entry and makes the compress step
fail. -/
theorem strategy_table_only_four_entries_witness :
    (lookupStrategy 3).isSome = true ∧
    compressStep 4 (1/2) [] [] = Except.error "KeyError" := by
  have h := strategy_table_only_four_entries
  exact ⟨(h.1 3).mpr (by decide), h.2 4 (by decide) (1/2) [] []⟩

/-- Embedding of `torch.sum(index * sorted_probs)` with
`index = arange(1, num_experts + 1)`: the sum of each entry weighted by
its 1-based position, recursing with the running index. -/
def weightedIndexSum : ℚ → List ℚ → ℚ
  | _, [] => 0
  | i, x :: xs => i * x + weightedIndexSum (i + 1) xs

/-- Embedding of the `balance_mode == "gini"` branch of
`TopKBalancedRouter._compute_advanced_balance_loss`:
`(2 * sum(index * sorted_probs) / (num_experts * sum(sorted_probs))) - 1`
over the ascending sort of the mean per-expert probabilities. -/
def giniLoss (numExperts : Nat) (probs : List ℚ) : ℚ :=
  2 * weightedIndexSum 1 (List.insertionSort (· ≤ ·) probs)
    / ((numExperts : ℚ) * (List.insertionSort (· ≤ ·) probs).sum) - 1

theorem weightedIndexSum_replicate (n : Nat) (c : ℚ) :
    ∀ i : ℚ, weightedIndexSum i (List.replicate n c)
      = c * ((n : ℚ) * i + (n : ℚ) * ((n : ℚ) - 1) / 2) := by
  induction n with
  | zero => intro i; simp [weightedIndexSum]
  | succ m ih =>
      intro i
      rw [List.replicate_succ]
      show i * c + weightedIndexSum (i + 1) (List.replicate m c) = _
      rw [ih (i + 1)]
      push_cast
      ring

theorem weightedIndexSum_append (xs ys : List ℚ) :
    ∀ i : ℚ, weightedIndexSum i (xs ++ ys)
      = weightedIndexSum i xs + weightedIndexSum (i + (xs.length : ℚ)) ys := by
  induction xs with
  | nil => intro i; simp [weightedIndexSum]
  | cons x t ih =>
      intro i
      show i * x + weightedIndexSum (i + 1) (t ++ ys) = _
      rw [ih (i + 1)]
      have harg : i + 1 + (t.length : ℚ) = i + ((t.length : ℚ) + 1) := by ring
      rw [harg]
      simp only [weightedIndexSum, List.length_cons]
      push_cast
      ring

theorem insertionSort_replicate (n : Nat) (c : ℚ) :
    List.insertionSort (· ≤ ·) (List.replicate n c) = List.replicate n c := by
  refine List.eq_of_perm_of_sorted (List.perm_insertionSort _ _) (List.sorted_insertionSort _ _) ?_
  exact List.pairwise_replicate.mpr (Or.inr le_rfl)

theorem insertionSort_concentrated (m : Nat) (c : ℚ) (hc : 0 ≤ c) (probs : List ℚ)
    (h : probs.Perm (c :: List.replicate m 0)) :
    List.insertionSort (· ≤ ·) probs = List.replicate m 0 ++ [c] := by
  refine List.eq_of_perm_of_sorted
    (((List.perm_insertionSort _ _).trans h).trans (List.perm_append_singleton c _).symm)
    (List.sorted_insertionSort _ _) ?_
  rw [List.Sorted, List.pairwise_append]
  refine ⟨List.pairwise_replicate.mpr (Or.inr le_rfl), List.pairwise_singleton _ _, ?_⟩
  intro x hx y hy
  rw [List.eq_of_mem_replicate hx, List.mem_singleton.mp hy]
  exact hc

/-- C2 (amended): for the gini balance mode, the penalty on a perfectly
uniform mean-probability vector is 1/num_experts — strictly positive, not
0 as claimed — and the penalty when all probability mass sits on a single
expert is 1, also strictly positive. -/
theorem gini_balance_loss_spec (n : Nat) (c : ℚ) (hn : 1 ≤ n) (hc : 0 < c) :
    (giniLoss n (List.replicate n c) = 1 / (n : ℚ) ∧ 0 < giniLoss n (List.replicate n c)) ∧
    ∀ probs : List ℚ, probs.Perm (c :: List.replicate (n - 1) 0) →
      giniLoss n probs = 1 := by
  have hnpos : 0 < n := hn
  have hq : (0 : ℚ) < (n : ℚ) := by exact_mod_cast hnpos
  have hnq : (n : ℚ) ≠ 0 := ne_of_gt hq
  have hcne : c ≠ 0 := ne_of_gt hc
  have huni : giniLoss n (List.replicate n c) = 1 / (n : ℚ) := by
    unfold giniLoss
    rw [insertionSort_replicate, weightedIndexSum_replicate, List.sum_replicate, nsmul_eq_mul]
    field_simp
    ring
  refine ⟨⟨huni, by rw [huni]; exact one_div_pos.mpr hq⟩, ?_⟩
  intro probs hperm
  obtain ⟨m, rfl⟩ : ∃ m, n = m + 1 := ⟨n - 1, by omega⟩
  have hm : (m + 1) - 1 = m := by omega
  rw [hm] at hperm
  unfold giniLoss
  rw [insertionSort_concentrated m c (le_of_lt hc) probs hperm]
  rw [weightedIndexSum_append, weightedIndexSum_replicate]
  simp only [weightedIndexSum, List.length_replicate, List.sum_append, List.sum_replicate,
    List.sum_cons, List.sum_nil, nsmul_eq_mul]
  push_cast
  field_simp
  ring

/-- C2 counterexample: with 4 experts and a perfectly uniform mean
probability vector (1/4 per expert), the gini-mode penalty evaluates to
1/4, not 0 as the claim states. -/
theorem gini_uniform_counterexample :
    giniLoss 4 [(1/4 : ℚ), 1/4, 1/4, 1/4] = 1/4 ∧ (1/4 : ℚ) ≠ 0 := by
  constructor
  · norm_num [giniLoss, weightedIndexSum, List.insertionSort, List.orderedInsert]
  · norm_num

/-- C2 witness: the amended statement at 4 experts — the uniform vector
(1/4 each) scores 1/4 and a one-hot mass on a single expert scores 1. -/
theorem gini_balance_loss_spec_witness :
    giniLoss 4 (List.replicate 4 (1/4 : ℚ)) = 1/4 ∧
    giniLoss 4 [(1/4 : ℚ), 0, 0, 0] = 1 := by
  have h := gini_balance_loss_spec 4 (1/4) (by norm_num) (by norm_num)
  refine ⟨by rw [h.1.1]; norm_num, ?_⟩
  exact h.2 [(1/4 : ℚ), 0, 0, 0] (by simp [List.replicate])

/-- Embedding of the second-stage scatter of `HierarchicalRouter.forward`
for one token whose (top-1) selected group is `selGroup`: starting from an
all-zero per-expert vector, position `selGroup * experts_per_group + i`
receives `intra_group_probs[i] * group_prob` for each intra-group index
`i` (guarded by `expert_idx < num_experts` as in the source), with
`experts_per_group = num_experts // num_groups`. -/
def composeHierarchicalProbs (numExperts numGroups selGroup : Nat)
    (groupProb : ℚ) (intraProbs : List ℚ) : List ℚ :=
  (List.range (numExperts / numGroups)).foldl
    (fun acc i =>
      if selGroup * (numExperts / numGroups) + i < numExperts then
        acc.set (selGroup * (numExperts / numGroups) + i) (intraProbs.getD i 0 * groupProb)
      else acc)
    (List.replicate numExperts 0)

/-- C4: with num_groups = 4 and num_experts = 8 (2 experts per group), a
token routed to group 2 receives non-zero composed probability only at
global expert indices 4 and 5, where the composed value is the group
probability times the intra-group probability. -/
theorem hierarchical_group2_experts45 (groupProb ip0 ip1 : ℚ) :
    composeHierarchicalProbs 8 4 2 groupProb [ip0, ip1]
      = [0, 0, 0, 0, groupProb * ip0, groupProb * ip1, 0, 0] ∧
    (composeHierarchicalProbs 8 4 2 groupProb [ip0, ip1]).getD 4 0 = groupProb * ip0 ∧
    (composeHierarchicalProbs 8 4 2 groupProb [ip0, ip1]).getD 5 0 = groupProb * ip1 := by
  have h : composeHierarchicalProbs 8 4 2 groupProb [ip0, ip1]
      = [0, 0, 0, 0, ip0 * groupProb, ip1 * groupProb, 0, 0] := rfl
  rw [h]
  norm_num [List.getD, mul_comm]

/-- ReLU activation. -/
def relu (x : ℚ) : ℚ := max x 0

/-- One linear layer `y = W x + b`. -/
def linearMap {m n : Nat} (W : Fin m → Fin n → ℚ) (b : Fin m → ℚ)
    (x : Fin n → ℚ) : Fin m → ℚ :=
  fun i => (∑ j, W i j * x j) + b i

/-- Embedding of the scoring network `BaseMoERouter.router`
(Linear → ReLU → Dropout → Linear). The dropout layer is embedded as a
pointwise multiplicative mask, which covers eval mode (mask = 1) and every
training-mode realization (mask entries 0 or 1/(1-p)); `_init_weights`
zero-initializes both biases, which the theorems below fix to 0 while
leaving the xavier-sampled weight matrices arbitrary. -/
def scoringNet {h e : Nat} (W1 : Fin h → Fin h → ℚ) (b1 : Fin h → ℚ)
    (dropMask : Fin h → ℚ) (W2 : Fin e → Fin h → ℚ) (b2 : Fin e → ℚ)
    (x : Fin h → ℚ) : Fin e → ℚ :=
  linearMap W2 b2 (fun i => dropMask i * relu (linearMap W1 b1 x i))

/-- Softmax over the expert axis (`F.softmax(logits, dim=-1)`); real
valued since exp is transcendental. -/
noncomputable def softmax {n : Nat} (z : Fin n → ℝ) : Fin n → ℝ :=
  fun i => Real.exp (z i) / ∑ j, Real.exp (z j)

/-- C7: with hidden_dim = 8, num_experts = 4, top_k = 2 and a zero
hidden-state input, the base router's logits are all zero for any weight
matrices and dropout realization (the zero-initialized biases make every
logit equal), so router_probs is uniformly 1/4; and the per-expert
capacity for batch = 1, seq_len = 10, capacity_factor = 1.5 is
int(10 * 1.5 * 2 / 4) = 7. -/
theorem base_router_zero_input_uniform (W1 : Fin 8 → Fin 8 → ℚ) (dropMask : Fin 8 → ℚ)
    (W2 : Fin 4 → Fin 8 → ℚ) (i : Fin 4) :
    scoringNet W1 (fun _ => 0) dropMask W2 (fun _ => 0) (fun _ => 0) i = 0 ∧
    softmax (fun e =>
      ((scoringNet W1 (fun _ => 0) dropMask W2 (fun _ => 0) (fun _ => 0) e : ℚ) : ℝ)) i
      = 1/4 ∧
    computeCapacity 1 10 (3/2) 2 4 = 7 := by
  have hlog : ∀ e : Fin 4,
      scoringNet W1 (fun _ => 0) dropMask W2 (fun _ => 0) (fun _ => 0) e = 0 := by
    intro e
    simp [scoringNet, linearMap, relu]
  refine ⟨hlog i, ?_, ?_⟩
  · have hz : (fun e : Fin 4 =>
        ((scoringNet W1 (fun _ => 0) dropMask W2 (fun _ => 0) (fun _ => 0) e : ℚ) : ℝ))
        = fun _ => (0 : ℝ) := by
      funext e
      rw [hlog e]
      norm_num
    rw [hz]
    unfold softmax
    rw [Real.exp_zero]
    rw [Finset.sum_const]
    norm_num
  · have hval : pyTrunc (((1 * 10 : ℕ) : ℚ) * (3/2) * ((2 : ℕ) : ℚ) / ((4 : ℕ) : ℚ)) = 7 := by
      norm_num [pyTrunc]
    unfold computeCapacity pyTruncNat
    rw [hval]
    decide

/-- Mutable state of an importance-adaptive router (`AdaptiveRouter`,
`PiKVMoERouter`) as far as `forward` mutates it: the configured `top_k`
field, the base statistics buffers, and the bounded circular importance
history with its write cursor. The numeric outputs of the scoring and
predictor networks enter as explicit inputs of the state transformers:
the claims below concern which fields `forward` mutates, not the values
routed. -/
structure AdaptiveRouterState where
  topK : Nat
  adaptiveTopK : Bool
  totalTokens : ℚ
  expertUsageCount : Nat → ℚ
  routingDecisions : Nat → ℚ
  importanceHistory : Nat → ℚ
  importanceIdx : Nat

/-- `AdaptiveRouter._adapt_top_k`: argmax of the top-k predictor
(0-based) plus one, clamped to the configured top_k; identity when the
adaptive mode is off or the predictor is absent. -/
def adaptTopK (st : AdaptiveRouterState) (predictorArgmax : Nat) : Nat :=
  if st.adaptiveTopK then min (predictorArgmax + 1) st.topK else st.topK

/-- Occurrences of expert `e` among the chosen top-k indices
(`(top_k_indices == expert_idx).sum().float()`). -/
def countExpert (e : Nat) (topKIndices : List Nat) : ℚ :=
  ((topKIndices.filter (fun x => x == e)).length : ℚ)

/-- Statistics update at the end of `BaseMoERouter.forward`: add the token
count to `total_tokens` and the per-expert assignment counts to
`expert_usage_count` and `routing_decisions`. -/
def baseForwardStatsUpdate (st : AdaptiveRouterState) (batchSize seqLen : Nat)
    (topKIndices : List Nat) : AdaptiveRouterState :=
  { st with
    totalTokens := st.totalTokens + ((batchSize * seqLen : Nat) : ℚ),
    expertUsageCount := fun e => st.expertUsageCount e + countExpert e topKIndices,
    routingDecisions := fun e => st.routingDecisions e + countExpert e topKIndices }

/-- Circular append of the flattened per-token importance values into the
1000-slot history (`AdaptiveRouter.forward`). -/
def recordImportance (st : AdaptiveRouterState) (importanceVals : List ℚ) :
    AdaptiveRouterState :=
  importanceVals.foldl
    (fun s v =>
      { s with
        importanceHistory :=
          fun idx => if idx = s.importanceIdx % 1000 then v else s.importanceHistory idx,
        importanceIdx := s.importanceIdx + 1 })
    st

/-- State effect of `AdaptiveRouter.forward`: compute the effective top_k,
temporarily write it into the `top_k` field, run the base forward
(statistics update), restore the original `top_k`, then record the
importance history. -/
def adaptiveForward (st : AdaptiveRouterState) (batchSize seqLen : Nat)
    (predictorArgmax : Nat) (topKIndices : List Nat) (importanceVals : List ℚ) :
    AdaptiveRouterState :=
  let currentTopK := adaptTopK st predictorArgmax
  let originalTopK := st.topK
  let st1 := { st with topK := currentTopK }
  let st2 := baseForwardStatsUpdate st1 batchSize seqLen topKIndices
  let st3 := { st2 with topK := originalTopK }
  recordImportance st3 importanceVals

/-- State effect of `PiKVMoERouter.forward`: the `top_k` field is swapped
only around the dispatch/combine construction and restored immediately;
the statistics update then adds the token and usage counts
(`routing_decisions` is untouched and no importance history is recorded
on this path). -/
def pikvForward (st : AdaptiveRouterState) (batchSize seqLen : Nat)
    (predictorArgmax : Nat) (topKIndices : List Nat) : AdaptiveRouterState :=
  let currentTopK := adaptTopK st predictorArgmax
  let originalTopK := st.topK
  let st1 := { st with topK := currentTopK }
  let st2 := { st1 with topK := originalTopK }
  { st2 with
    totalTokens := st2.totalTokens + ((batchSize * seqLen : Nat) : ℚ),
    expertUsageCount := fun e => st2.expertUsageCount e + countExpert e topKIndices }

theorem recordImportance_topK (importanceVals : List ℚ) :
    ∀ st : AdaptiveRouterState, (recordImportance st importanceVals).topK = st.topK := by
  induction importanceVals with
  | nil => intro st; rfl
  | cons v t ih => intro st; exact ih _

/-- C8: both importance-adaptive routers use the predicted effective top_k
only inside the current call: after `forward` returns, the configured
`top_k` field equals its value before the call. -/
theorem adaptive_forward_restores_top_k (st : AdaptiveRouterState) (batchSize seqLen : Nat)
    (predictorArgmax : Nat) (topKIndices : List Nat) (importanceVals : List ℚ) :
    (adaptiveForward st batchSize seqLen predictorArgmax topKIndices importanceVals).topK
      = st.topK ∧
    (pikvForward st batchSize seqLen predictorArgmax topKIndices).topK = st.topK := by
  constructor
  · unfold adaptiveForward
    rw [recordImportance_topK]
  · rfl

/-- Union of the `register_buffer` state across the router class
hierarchy: the three base counters plus the bounded circular histories
contributed by `TopKBalancedRouter` (balance-loss history),
`AdaptiveRouter` (importance history), `PiKVMoERouter` (cache-usage
history) and `EPLBRouter` (expert-load history), each with its write
cursor, next to the learned scoring-network parameters. Only
`BaseMoERouter.reset_stats` exists (no subclass overrides it) and it
zeroes the three counters alone. -/
structure RouterState where
  scoringParams : List ℚ
  totalTokens : ℚ
  expertUsageCount : List ℚ
  routingDecisions : List ℚ
  balanceLossHistory : List ℚ
  balanceLossIdx : Nat
  importanceHistory : List ℚ
  importanceIdx : Nat
  cacheUsageHistory : List ℚ
  cacheUpdateCounter : Nat
  expertLoadHistory : List ℚ
  loadHistoryIdx : Nat

/-- Embedding of `BaseMoERouter.reset_stats`: `zero_()` on
`total_tokens`, `expert_usage_count` and `routing_decisions`; every other
buffer (histories, cursors) and the network parameters are untouched. -/
def RouterState.resetStats (r : RouterState) : RouterState :=
  { r with
    totalTokens := 0,
    expertUsageCount := r.expertUsageCount.map (fun _ => 0),
    routingDecisions := r.routingDecisions.map (fun _ => 0) }

/-- Valid entries of the balance-loss ring buffer, as read back by
`get_balance_loss_stats` (`balance_loss_history[:min(idx, 100)]`). -/
def RouterState.balanceEntries (r : RouterState) : List ℚ :=
  r.balanceLossHistory.take (min r.balanceLossIdx 100)

/-- Snapshot returned by `BaseMoERouter.get_routing_stats`. -/
structure RoutingStatsView where
  expertUsageOverTotal : List ℚ
  expertUsageCount : List ℚ
  totalTokens : ℚ
  routingDecisions : List ℚ

/-- Embedding of `BaseMoERouter.get_routing_stats`: usage counts divided
by total tokens when any were seen, else a zero vector of the same
shape. -/
def RouterState.getRoutingStats (r : RouterState) : RoutingStatsView :=
  { expertUsageOverTotal :=
      if 0 < r.totalTokens then r.expertUsageCount.map (· / r.totalTokens)
      else r.expertUsageCount.map (fun _ => 0),
    expertUsageCount := r.expertUsageCount,
    totalTokens := r.totalTokens,
    routingDecisions := r.routingDecisions }

/-- Per-layer, per-expert compression statistics held by the press. -/
structure ExpertCompressionStats where
  expertUsage : List ℚ
  compressionRates : List ℚ
  cacheHitRates : List ℚ

/-- In-place `zero_()` of the three per-layer stat tensors, as done by
`MoERouterPress.reset_stats`. -/
def ExpertCompressionStats.zeroed (s : ExpertCompressionStats) : ExpertCompressionStats :=
  { expertUsage := s.expertUsage.map (fun _ => 0),
    compressionRates := s.compressionRates.map (fun _ => 0),
    cacheHitRates := s.cacheHitRates.map (fun _ => 0) }

/-- Mutable state of the `MoERouterPress` orchestrator: the lazily filled
layer registry, the per-layer compression statistics, and the running
auxiliary-loss total and forward counter. -/
structure PressState where
  routers : List (Nat × RouterState)
  expertCompressionStats : List (Nat × ExpertCompressionStats)
  totalAuxLoss : ℚ
  forwardCount : Nat

/-- Embedding of `MoERouterPress.reset_stats`: zero the aggregate
counters, call `reset_stats` on every constructed layer router, and zero
every layer's compression stat tensors. -/
def PressState.resetStats (p : PressState) : PressState :=
  { p with
    totalAuxLoss := 0,
    forwardCount := 0,
    routers := p.routers.map (fun lr => (lr.1, lr.2.resetStats)),
    expertCompressionStats := p.expertCompressionStats.map (fun ls => (ls.1, ls.2.zeroed)) }

/-- Snapshot returned by `MoERouterPress.get_stats`. -/
structure PressStatsView where
  totalAuxLoss : ℚ
  avgAuxLoss : ℚ
  forwardCount : Nat
  layerStats : List (Nat × RoutingStatsView)
  layerCompressionStats : List (Nat × ExpertCompressionStats)

/-- Embedding of `MoERouterPress.get_stats`: the aggregate counters, the
average `total_aux_loss / max(1, forward_count)`, and a per-layer
snapshot of routing and compression statistics. -/
def PressState.getStats (p : PressState) : PressStatsView :=
  { totalAuxLoss := p.totalAuxLoss,
    avgAuxLoss := p.totalAuxLoss / ((max 1 p.forwardCount : Nat) : ℚ),
    forwardCount := p.forwardCount,
    layerStats := p.routers.map (fun lr => (lr.1, lr.2.getRoutingStats)),
    layerCompressionStats := p.expertCompressionStats }

theorem all_beq_zero_of_map_zero (l : List ℚ) :
    (l.map (fun _ => (0 : ℚ))).all (fun x => x == 0) = true := by
  simp [List.all_map, Function.comp]

/-- C1 (amended): after `reset_stats()`, `get_stats()` reports zero for
every counter — total and average auxiliary loss, forward count, and for
every constructed layer router the total token count, expert usage and
routing-decision counts (hence zero usage-over-total vectors) and the
per-expert compression statistics — and the scoring-network parameters
are unchanged; however the bounded circular histories are NOT cleared:
every history buffer and every write cursor is left exactly as it was
before the reset. -/
theorem reset_stats_zeroes_counters_keeps_histories (p : PressState) :
    p.resetStats.getStats.totalAuxLoss = 0 ∧
    p.resetStats.getStats.avgAuxLoss = 0 ∧
    p.resetStats.getStats.forwardCount = 0 ∧
    (p.resetStats.getStats.layerStats.all (fun ls =>
        (ls.2.totalTokens == 0) &&
        ls.2.expertUsageCount.all (fun x => x == 0) &&
        ls.2.routingDecisions.all (fun x => x == 0) &&
        ls.2.expertUsageOverTotal.all (fun x => x == 0))) = true ∧
    (p.resetStats.getStats.layerCompressionStats.all (fun ls =>
        ls.2.expertUsage.all (fun x => x == 0) &&
        ls.2.compressionRates.all (fun x => x == 0) &&
        ls.2.cacheHitRates.all (fun x => x == 0))) = true ∧
    p.resetStats.routers.map (fun lr => lr.2.scoringParams)
      = p.routers.map (fun lr => lr.2.scoringParams) ∧
    p.resetStats.routers.map (fun lr => (lr.2.balanceLossHistory, lr.2.balanceLossIdx))
      = p.routers.map (fun lr => (lr.2.balanceLossHistory, lr.2.balanceLossIdx)) ∧
    p.resetStats.routers.map (fun lr => (lr.2.importanceHistory, lr.2.importanceIdx))
      = p.routers.map (fun lr => (lr.2.importanceHistory, lr.2.importanceIdx)) ∧
    p.resetStats.routers.map (fun lr => (lr.2.cacheUsageHistory, lr.2.cacheUpdateCounter))
      = p.routers.map (fun lr => (lr.2.cacheUsageHistory, lr.2.cacheUpdateCounter)) ∧
    p.resetStats.routers.map (fun lr => (lr.2.expertLoadHistory, lr.2.loadHistoryIdx))
      = p.routers.map (fun lr => (lr.2.expertLoadHistory, lr.2.loadHistoryIdx)) := by
  refine ⟨rfl, ?_, rfl, ?_, ?_, ?_, ?_, ?_, ?_, ?_⟩
  · show (0 : ℚ) / ((max 1 (0 : ℕ) : ℕ) : ℚ) = 0
    simp
  · rw [List.all_eq_true]
    intro ls hls
    simp only [PressState.getStats, PressState.resetStats, List.map_map] at hls
    obtain ⟨lr, _, rfl⟩ := List.mem_map.mp hls
    simp [Function.comp, RouterState.getRoutingStats, RouterState.resetStats,
      all_beq_zero_of_map_zero]
  · rw [List.all_eq_true]
    intro ls hls
    simp only [PressState.getStats, PressState.resetStats, List.map_map] at hls
    obtain ⟨lc, _, rfl⟩ := List.mem_map.mp hls
    simp [Function.comp, ExpertCompressionStats.zeroed, all_beq_zero_of_map_zero]
  · simp [PressState.resetStats, List.map_map, Function.comp, RouterState.resetStats]
  · simp [PressState.resetStats, List.map_map, Function.comp, RouterState.resetStats]
  · simp [PressState.resetStats, List.map_map, Function.comp, RouterState.resetStats]
  · simp [PressState.resetStats, List.map_map, Function.comp, RouterState.resetStats]
  · simp [PressState.resetStats, List.map_map, Function.comp, RouterState.resetStats]

/-- Concrete orchestrator state after one forward pass through one layer
whose router has recorded one balance-loss history entry. -/
def samplePressState : PressState :=
  { routers := [(0,
      { scoringParams := [1, -2],
        totalTokens := 10,
        expertUsageCount := [6, 4],
        routingDecisions := [6, 4],
        balanceLossHistory := [5],
        balanceLossIdx := 1,
        importanceHistory := [],
        importanceIdx := 0,
        cacheUsageHistory := [],
        cacheUpdateCounter := 0,
        expertLoadHistory := [],
        loadHistoryIdx := 0 })],
    expertCompressionStats := [(0,
      { expertUsage := [1, 0],
        compressionRates := [3/10, 0],
        cacheHitRates := [1/10, 0] })],
    totalAuxLoss := 7,
    forwardCount := 1 }

/-- C1 counterexample: in `samplePressState` the layer-0 router holds one
recorded balance-loss value; after `reset_stats()` its ring buffer still
holds that value and its write cursor is still 1, so the balance-loss
history read back is [5] — not empty as the claim requires. -/
theorem reset_stats_history_counterexample :
    samplePressState.resetStats.routers.map (fun lr => lr.2.balanceEntries) = [[5]] ∧
    samplePressState.resetStats.routers.map (fun lr => lr.2.balanceLossIdx) = [1] ∧
    ([[(5 : ℚ)]] : List (List ℚ)) ≠ [[]] := by
  refine ⟨?_, rfl, by simp⟩
  simp [samplePressState, PressState.resetStats, RouterState.resetStats,
    RouterState.balanceEntries]
